import Mathlib

/-!
# PyWord: a 64-byte buffer with a used-length counter

Shallow embedding of `src/pyword.h` and `src/pyword.c`.

* The byte array `uint8_t data[PYWORD_SIZE]` is a total function on `Fin 64`.
* The `uint8_t` fields and locals that take part in arithmetic (`len`, `n`) are
  natural numbers; every store into one of them is written with an explicit
  `% 256`.
* A C function that receives `self` by pointer returns the state after the call
  next to its result.
* Calls into the host runtime (`PyObject_GetBuffer`, `tp_alloc`,
  `PyBytes_FromStringAndSize`) are modelled by what they hand back to this code.
-/

/-! ## pyword.h -/

namespace pyword_h

/-- The capacity constant: `#define PYWORD_SIZE 64`. -/
abbrev PYWORD_SIZE : Nat := 64

/-- One stored byte (`uint8_t`, only ever copied, never computed with). -/
abbrev Byte := Fin 256

/-- The plain C object: `uint8_t data[PYWORD_SIZE]; uint8_t len;`. -/
structure PyWord where
  data : Fin PYWORD_SIZE → Byte
  len : Nat

/-- Storing a value into a `uint8_t` object keeps it modulo 256. -/
def to_uint8 (x : Nat) : Nat := x % 256

/-- The expression `k > PYWORD_SIZE ? PYWORD_SIZE : k`, before it is stored. -/
def clamp (k : Nat) : Nat := if k > PYWORD_SIZE then PYWORD_SIZE else k

/-- The call `memcpy(w->data, src, n)`: bytes `0 .. n-1` of the array are replaced by
those of `src`, the others are kept. `src` is the run of bytes the source pointer
addresses; a read beyond it is undefined in C and yields `0` here. Both call sites
pass `n ≤ PYWORD_SIZE`, so no write falls outside the array. -/
def memcpy (dst : Fin PYWORD_SIZE → Byte) (src : List Byte) (n : Nat) :
    Fin PYWORD_SIZE → Byte :=
  fun i => if i.val < n then src.getD i.val 0 else dst i

/-- The helper `pyword_set(PyWord *w, const uint8_t *src, uint8_t n)`:
```
n = n > PYWORD_SIZE ? PYWORD_SIZE : n;
memcpy(w->data, src, n);
w->len = n;
```
The count arrives in a `uint8_t` parameter, hence the first `to_uint8`. -/
def pyword_set (w : PyWord) (src : List Byte) (n : Nat) : PyWord :=
  let n0 := to_uint8 n
  let n1 := to_uint8 (clamp n0)
  { data := memcpy w.data src n1, len := to_uint8 n1 }

/-- The helper `pyword_bytes`: `return w->data;`. -/
def pyword_bytes (w : PyWord) : Fin PYWORD_SIZE → Byte := w.data

/-- The helper `pyword_len` of the header: `return w->len;`. -/
def pyword_len (w : PyWord) : Nat := w.len

end pyword_h

/-! ## pyword.c -/

namespace pyword_c

open pyword_h

/-- The Python object wrapper `PyWordObject` (`PyObject_HEAD` belongs to the host
runtime and carries nothing this code reads or writes). -/
structure PyWordObject where
  word : PyWord

/-- A `Py_buffer` as filled in for `PyBUF_SIMPLE`: the contiguous bytes `buf` and their
count `len`. -/
structure Py_buffer where
  buf : List Byte
  len : Nat

/-- The argument object of `set_bytes`, seen through the buffer interface: either it
exports a contiguous run of bytes, or it does not. -/
inductive PyObject where
  | bytesLike (s : List Byte)
  | notBytesLike

/-- The call `PyObject_GetBuffer(obj, &view, PyBUF_SIMPLE)`: `some view` when it returns
`0`, `none` when it returns a negative value (with the exception set). -/
def PyObject_GetBuffer : PyObject → Option Py_buffer
  | .bytesLike s => some { buf := s, len := s.length }
  | .notBytesLike => none

/-- What a method hands back as its `PyObject *`: `NULL` (an exception is set),
`Py_None`, or a new bytes object. -/
inductive PyRet where
  | NULL
  | None
  | Bytes (b : List Byte)
  deriving DecidableEq

/-- The constructor `pyword_new`: `alloc` is the result of `type->tp_alloc(type, 0)`
(`none` for a null pointer, otherwise the fresh object with whatever its storage holds).
```
if (self) { self->word.len = 0; }
return (PyObject *)self;
``` -/
def pyword_new (alloc : Option PyWordObject) : Option PyWordObject :=
  match alloc with
  | some self => some { word := { data := self.word.data, len := to_uint8 0 } }
  | none => none

/-- The method `pyword_set_bytes`:
```
if (PyObject_GetBuffer(obj, &view, PyBUF_SIMPLE) < 0) return NULL;
uint8_t n = view.len > PYWORD_SIZE ? PYWORD_SIZE : view.len;
memcpy(self->word.data, view.buf, n);
self->word.len = n;
PyBuffer_Release(&view);
Py_RETURN_NONE;
``` -/
def pyword_set_bytes (self : PyWordObject) (obj : PyObject) : PyWordObject × PyRet :=
  match PyObject_GetBuffer obj with
  | none => (self, PyRet.NULL)
  | some view =>
    let n := to_uint8 (clamp view.len)
    ({ word := { data := memcpy self.word.data view.buf n, len := to_uint8 n } }, PyRet.None)

/-- The call `PyBytes_FromStringAndSize((char *)data, size)`: a new bytes object holding
the `size` bytes that start at `data`. The read stays inside the array exactly when
`size ≤ PYWORD_SIZE`; otherwise it runs past the array and the result is `none`.
Failure of the host allocator is not part of the model. -/
def PyBytes_FromStringAndSize (data : Fin PYWORD_SIZE → Byte) (size : Nat) :
    Option PyRet :=
  if size ≤ PYWORD_SIZE then some (PyRet.Bytes ((List.ofFn data).take size)) else none

/-- The method `pyword_get_bytes`:
`return PyBytes_FromStringAndSize((char *)self->word.data, self->word.len);`. -/
def pyword_get_bytes (self : PyWordObject) : PyWordObject × Option PyRet :=
  (self, PyBytes_FromStringAndSize self.word.data self.word.len)

/-- The function `pyword_len` of `pyword.c`: `return self->word.len;` as a
`Py_ssize_t`. -/
def pyword_len (self : PyWordObject) : PyWordObject × Int :=
  (self, (self.word.len : Int))

/-- The states a `PyWordObject` can be in: the one `pyword_new` returns, and whatever
`pyword_set_bytes` (with any argument) and the helper `pyword_set` (with any source and
count) make of a reachable one. `pyword_get_bytes` and `pyword_len` return the state
they were given. -/
inductive Reachable : PyWordObject → Prop where
  | new (a self : PyWordObject) : pyword_new (some a) = some self → Reachable self
  | set_bytes (self : PyWordObject) (obj : PyObject) :
      Reachable self → Reachable (pyword_set_bytes self obj).1
  | set (self : PyWordObject) (src : List Byte) (n : Nat) :
      Reachable self → Reachable { word := pyword_set self.word src n }

/-- The C functions of `pyword.c` that a table or slot can point to. -/
inductive CFunc where
  | pyword_new
  | pyword_dealloc
  | pyword_set_bytes
  | pyword_get_bytes
  | pyword_len
  deriving DecidableEq

/-- The calling conventions used in the method table. -/
inductive MethFlags where
  | METH_O
  | METH_NOARGS
  deriving DecidableEq

/-- One row of a method table: `{ml_name, ml_meth, ml_flags, ml_doc}` (the doc string is
left out). -/
structure PyMethodDef where
  ml_name : String
  ml_meth : CFunc
  ml_flags : MethFlags
  deriving DecidableEq

/-- The table `pyword_methods`, without its sentinel row:
```
{"set_bytes", (PyCFunction)pyword_set_bytes, METH_O, pyword_set_bytes_doc},
{"get_bytes", (PyCFunction)pyword_get_bytes, METH_NOARGS, pyword_get_bytes_doc},
{NULL, NULL}
``` -/
def pyword_methods : List PyMethodDef :=
  [ ⟨"set_bytes", CFunc.pyword_set_bytes, MethFlags.METH_O⟩,
    ⟨"get_bytes", CFunc.pyword_get_bytes, MethFlags.METH_NOARGS⟩ ]

/-- The length slot of a sequence protocol table. -/
structure PySequenceMethods where
  sq_length : Option CFunc

/-- The length slot of a mapping protocol table. -/
structure PyMappingMethods where
  mp_length : Option CFunc

/-- The fields of a type object that `PyWordType` initialises and that point to code. -/
structure PyTypeObject where
  tp_name : String
  tp_new : Option CFunc
  tp_dealloc : Option CFunc
  tp_methods : List PyMethodDef
  tp_as_sequence : Option PySequenceMethods
  tp_as_mapping : Option PyMappingMethods

/-- The type object `PyWordType`:
```
.tp_new = pyword_new, .tp_dealloc = (destructor)pyword_dealloc,
.tp_methods = pyword_methods,
.tp_as_sequence = NULL, .tp_as_mapping = NULL, .tp_as_buffer = NULL,
``` -/
def PyWordType : PyTypeObject :=
  { tp_name := "pyword.PyWord"
    tp_new := some CFunc.pyword_new
    tp_dealloc := some CFunc.pyword_dealloc
    tp_methods := pyword_methods
    tp_as_sequence := none
    tp_as_mapping := none }

/-- Every C function a type object makes callable from outside: its constructor and
destructor slots, the rows of its method table, and the length slots of its protocol
tables. -/
def entry_points (t : PyTypeObject) : List CFunc :=
  t.tp_new.toList ++ t.tp_dealloc.toList ++ t.tp_methods.map (fun m => m.ml_meth)
    ++ (t.tp_as_sequence.bind (fun q => q.sq_length)).toList
    ++ (t.tp_as_mapping.bind (fun q => q.mp_length)).toList

/-- A `PyWordObject` whose storage is all zero bytes and whose length field is `k`. -/
def zeroed (k : Nat) : PyWordObject := { word := { data := fun _ => 0, len := k } }

/-- The five bytes of `b"hello"`. -/
def hello : List Byte := [104, 101, 108, 108, 111]

/-- The hundred bytes `0, 1, ..., 99`. -/
def bytes100 : List Byte := (List.range 100).map (fun k => (Fin.ofNat k : Fin 256))

/-- The state after `pyword_new`, then `set_bytes` on the hundred bytes `0..99`, then the
helper `pyword_set` with the same hundred bytes as source and the count 200. -/
def three_calls : PyWordObject :=
  { word := pyword_set (pyword_set_bytes (zeroed 0) (PyObject.bytesLike bytes100)).1.word bytes100 200 }

end pyword_c

open pyword_h pyword_c

/-! ## Basic facts -/

theorem to_uint8_clamp (k : Nat) : to_uint8 (clamp k) = min k 64 := by
  unfold to_uint8 clamp PYWORD_SIZE
  split <;> omega

theorem to_uint8_min (k : Nat) : to_uint8 (min k 64) = min k 64 := by
  unfold to_uint8
  omega

theorem take_ofFn_memcpy (dst : Fin PYWORD_SIZE → Byte) (src : List Byte) (n : Nat)
    (h64 : n ≤ 64) (hsrc : n ≤ src.length) :
    (List.ofFn (memcpy dst src n)).take n = src.take n := by
  have hP : PYWORD_SIZE = 64 := rfl
  apply List.ext_getElem
  · simp only [List.length_take, List.length_ofFn]
    omega
  · intro i h1 h2
    simp only [List.length_take, List.length_ofFn] at h1 h2
    have hi : i < n := by omega
    have hs : i < src.length := by omega
    rw [List.getElem_take, List.getElem_take, List.getElem_ofFn]
    simp only [memcpy, hi, if_true]
    exact List.getD_eq_getElem _ _ hs

theorem take_min_length (s : List Byte) : s.take (min s.length 64) = s.take 64 := by
  rcases Nat.le_total s.length 64 with h | h
  · rw [Nat.min_eq_left h, List.take_of_length_le h, List.take_of_length_le (le_refl _)]
  · rw [Nat.min_eq_right h]

theorem memcpy_memcpy (dst : Fin PYWORD_SIZE → Byte) (s1 s2 : List Byte) (n1 n2 : Nat)
    (h : n1 ≤ n2) : memcpy (memcpy dst s1 n1) s2 n2 = memcpy dst s2 n2 := by
  funext i
  simp only [memcpy]
  split
  · rfl
  · rename_i hi
    have : ¬ i.val < n1 := by omega
    simp only [this, if_false]

theorem memcpy_idem (dst : Fin PYWORD_SIZE → Byte) (s : List Byte) (n : Nat) :
    memcpy (memcpy dst s n) s n = memcpy dst s n :=
  memcpy_memcpy dst s s n n (le_refl n)

/-- The state and result of `set_bytes` on a byte sequence, in closed form. -/
theorem pyword_set_bytes_bytesLike (b : PyWordObject) (s : List Byte) :
    pyword_set_bytes b (PyObject.bytesLike s)
      = ({ word := { data := memcpy b.word.data s (min s.length 64),
                     len := min s.length 64 } }, PyRet.None) := by
  simp only [pyword_set_bytes, PyObject_GetBuffer, to_uint8_clamp, to_uint8_min]

/-- On a state whose length field is within the capacity, `get_bytes` is defined. -/
theorem pyword_get_bytes_of_le (b : PyWordObject) (h : b.word.len ≤ 64) :
    pyword_get_bytes b = (b, some (PyRet.Bytes ((List.ofFn b.word.data).take b.word.len))) := by
  have hP : PYWORD_SIZE = 64 := rfl
  simp only [pyword_get_bytes, PyBytes_FromStringAndSize]
  rw [if_pos (by omega)]

theorem get_after_set (b : PyWordObject) (s : List Byte) :
    (pyword_get_bytes (pyword_set_bytes b (PyObject.bytesLike s)).1).2
      = some (PyRet.Bytes (s.take (min s.length 64))) := by
  rw [pyword_set_bytes_bytesLike, pyword_get_bytes_of_le _ (Nat.min_le_right _ _)]
  simp only
  rw [take_ofFn_memcpy _ _ _ (Nat.min_le_right _ _) (Nat.min_le_left _ _)]

/-! ## The claims -/

/-- C1: for every buffer `b` in any prior state and every byte sequence `s` of any length,
after `set_bytes(b, s)` the length of `b` is `min(length s, 64)` (as the field and as
`pyword_len` reports it) and `get_bytes(b)` is the first `min(length s, 64)` bytes of
`s`; so `get(b) = s` when `length s ≤ 64`, and `get(b) = s[0:64]`, of length 64, when
`length s > 64`. Storing the clamped length into the `uint8_t` variable `n` does not
change its value. -/
theorem set_bytes_roundtrip (b : PyWordObject) (s : List Byte) :
    (pyword_set_bytes b (PyObject.bytesLike s)).1.word.len = min s.length 64 ∧
    (pyword_c.pyword_len (pyword_set_bytes b (PyObject.bytesLike s)).1).2
      = ((min s.length 64 : Nat) : Int) ∧
    (pyword_get_bytes (pyword_set_bytes b (PyObject.bytesLike s)).1).2
      = some (PyRet.Bytes (s.take (min s.length 64))) ∧
    (s.length ≤ 64 →
      (pyword_get_bytes (pyword_set_bytes b (PyObject.bytesLike s)).1).2
        = some (PyRet.Bytes s)) ∧
    (64 < s.length →
      (pyword_get_bytes (pyword_set_bytes b (PyObject.bytesLike s)).1).2
        = some (PyRet.Bytes (s.take 64)) ∧
      (s.take 64).length = 64 ∧
      (pyword_set_bytes b (PyObject.bytesLike s)).1.word.len = 64) ∧
    to_uint8 (clamp s.length) = clamp s.length := by
  refine ⟨?_, ?_, get_after_set b s, ?_, ?_, ?_⟩
  · rw [pyword_set_bytes_bytesLike]
  · rw [pyword_set_bytes_bytesLike]
    rfl
  · intro h
    rw [get_after_set, Nat.min_eq_left h, List.take_of_length_le (le_refl _)]
  · intro h
    refine ⟨?_, ?_, ?_⟩
    · rw [get_after_set, take_min_length]
    · rw [List.length_take]
      omega
    · rw [pyword_set_bytes_bytesLike]
      exact Nat.min_eq_right (Nat.le_of_lt h)
  · rw [to_uint8_clamp]
    unfold clamp PYWORD_SIZE
    split <;> omega

/-- Witness for C1 on `b"hello"` (short input) and on the hundred bytes `0..99` (long
input), both written into a buffer whose length field held 200. -/
theorem set_bytes_roundtrip_witness :
    (hello.length ≤ 64 ∧
      (pyword_get_bytes (pyword_set_bytes (zeroed 200) (PyObject.bytesLike hello)).1).2
        = some (PyRet.Bytes hello)) ∧
    (64 < bytes100.length ∧
      (pyword_get_bytes (pyword_set_bytes (zeroed 200) (PyObject.bytesLike bytes100)).1).2
        = some (PyRet.Bytes (bytes100.take 64)) ∧
      (bytes100.take 64).length = 64 ∧
      (pyword_set_bytes (zeroed 200) (PyObject.bytesLike bytes100)).1.word.len = 64) :=
  ⟨⟨by decide, (set_bytes_roundtrip (zeroed 200) hello).2.2.2.1 (by decide)⟩,
   ⟨by decide, (set_bytes_roundtrip (zeroed 200) bytes100).2.2.2.2.1 (by decide)⟩⟩

theorem pyword_set_len (w : PyWord) (src : List Byte) (n : Nat) :
    (pyword_set w src n).len = min (n % 256) 64 := by
  simp only [pyword_set, to_uint8_clamp, to_uint8_min]
  rfl

theorem pyword_set_bytes_len_le (self : PyWordObject) (obj : PyObject)
    (h : self.word.len ≤ 64) : (pyword_set_bytes self obj).1.word.len ≤ 64 := by
  cases obj with
  | bytesLike s =>
    rw [pyword_set_bytes_bytesLike]
    exact Nat.min_le_right _ _
  | notBytesLike => exact h

theorem reachable_len_le (b : PyWordObject) (h : Reachable b) : b.word.len ≤ 64 := by
  induction h with
  | new a self hnew =>
    simp only [pyword_new, Option.some.injEq] at hnew
    subst hnew
    simp [to_uint8]
  | set_bytes self obj _ ih => exact pyword_set_bytes_len_le self obj ih
  | set self src n _ _ =>
    show (pyword_set self.word src n).len ≤ 64
    rw [pyword_set_len]
    exact Nat.min_le_right _ _

/-- C2: the invariant `0 ≤ len ≤ 64` holds in every reachable state. It holds for the
buffer `pyword_new` produces; `pyword_set_bytes` establishes it for every byte-sequence
input and keeps it for every argument; the helper `pyword_set` establishes it for every
source and every count; hence in every reachable state `get_bytes` reads `len ≤ 64`
bytes, all inside the 64-byte array. -/
theorem len_invariant :
    (∀ a self : PyWordObject, pyword_new (some a) = some self →
      0 ≤ self.word.len ∧ self.word.len ≤ PYWORD_SIZE) ∧
    (∀ (self : PyWordObject) (s : List Byte),
      (pyword_set_bytes self (PyObject.bytesLike s)).1.word.len ≤ PYWORD_SIZE) ∧
    (∀ (self : PyWordObject) (obj : PyObject), self.word.len ≤ PYWORD_SIZE →
      (pyword_set_bytes self obj).1.word.len ≤ PYWORD_SIZE) ∧
    (∀ (w : PyWord) (src : List Byte) (n : Nat),
      (pyword_set w src n).len ≤ PYWORD_SIZE) ∧
    (∀ b : PyWordObject, Reachable b →
      0 ≤ b.word.len ∧ b.word.len ≤ PYWORD_SIZE ∧
      ∃ out : List Byte, (pyword_get_bytes b).2 = some (PyRet.Bytes out) ∧
        out.length = b.word.len) := by
  have hP : PYWORD_SIZE = 64 := rfl
  refine ⟨?_, ?_, ?_, ?_, ?_⟩
  · intro a self h
    exact ⟨Nat.zero_le _, reachable_len_le self (Reachable.new a self h)⟩
  · intro self s
    rw [pyword_set_bytes_bytesLike]
    exact Nat.min_le_right _ _
  · intro self obj h
    exact pyword_set_bytes_len_le self obj h
  · intro w src n
    rw [pyword_set_len]
    exact Nat.min_le_right _ _
  · intro b hb
    have hle := reachable_len_le b hb
    refine ⟨Nat.zero_le _, hle, (List.ofFn b.word.data).take b.word.len, ?_, ?_⟩
    · rw [pyword_get_bytes_of_le b hle]
    · rw [List.length_take, List.length_ofFn]
      omega

/-- Witness for C2: the state reached by `pyword_new`, then `set_bytes` on a hundred
bytes, then the helper `pyword_set` with count 200. -/
theorem len_invariant_witness :
    0 ≤ three_calls.word.len ∧ three_calls.word.len ≤ PYWORD_SIZE ∧
    ∃ out : List Byte, (pyword_get_bytes three_calls).2 = some (PyRet.Bytes out) ∧
      out.length = three_calls.word.len :=
  len_invariant.2.2.2.2 three_calls
    (Reachable.set _ bytes100 200
      (Reachable.set_bytes _ (PyObject.bytesLike bytes100)
        (Reachable.new (zeroed 7) (zeroed 0) rfl)))

/-- C3: overwrite semantics. For every buffer `b` and all byte sequences `s1`, `s2` of any
lengths, after `set_bytes(b, s1)` and then `set_bytes(b, s2)`, `get_bytes(b)` is
`s2[0:min(length s2, 64)]` and the length is `min(length s2, 64)`, whatever `s1` was. -/
theorem set_bytes_overwrite (b : PyWordObject) (s1 s2 : List Byte) :
    (pyword_get_bytes
        (pyword_set_bytes (pyword_set_bytes b (PyObject.bytesLike s1)).1
          (PyObject.bytesLike s2)).1).2
      = some (PyRet.Bytes (s2.take (min s2.length 64))) ∧
    (pyword_set_bytes (pyword_set_bytes b (PyObject.bytesLike s1)).1
        (PyObject.bytesLike s2)).1.word.len = min s2.length 64 ∧
    (pyword_c.pyword_len
        (pyword_set_bytes (pyword_set_bytes b (PyObject.bytesLike s1)).1
          (PyObject.bytesLike s2)).1).2 = ((min s2.length 64 : Nat) : Int) := by
  refine ⟨get_after_set _ s2, ?_, ?_⟩
  · rw [pyword_set_bytes_bytesLike _ s2]
  · rw [pyword_set_bytes_bytesLike _ s2]
    rfl

/-- C4: a freshly constructed buffer (`pyword_new` on an allocation that succeeded,
whatever the storage holds and whatever the length field held) has length 0, and
`get_bytes` on it returns the empty byte sequence. -/
theorem pyword_new_empty (a : PyWordObject) :
    ∃ self : PyWordObject, pyword_new (some a) = some self ∧
      self.word.len = 0 ∧
      (pyword_c.pyword_len self).2 = 0 ∧
      (pyword_get_bytes self).2 = some (PyRet.Bytes []) := by
  refine ⟨{ word := { data := a.word.data, len := 0 } }, rfl, rfl, rfl, ?_⟩
  rw [pyword_get_bytes_of_le _ (Nat.zero_le _)]
  simp only [List.take_zero]

/-- C5: `set_bytes` returns the error result exactly when its argument cannot be viewed as
a contiguous byte sequence (`PyObject_GetBuffer` fails); on every byte sequence, of any
length, also above 64, it returns `None`. -/
theorem set_bytes_fails_iff (self : PyWordObject) (obj : PyObject) :
    ((pyword_set_bytes self obj).2 = PyRet.NULL ↔ PyObject_GetBuffer obj = none) ∧
    ((pyword_set_bytes self obj).2 = PyRet.NULL ↔ obj = PyObject.notBytesLike) ∧
    (∀ s : List Byte, (pyword_set_bytes self (PyObject.bytesLike s)).2 = PyRet.None) := by
  refine ⟨?_, ?_, ?_⟩
  · cases obj <;> simp [pyword_set_bytes, PyObject_GetBuffer]
  · cases obj <;> simp [pyword_set_bytes, PyObject_GetBuffer]
  · intro s
    rw [pyword_set_bytes_bytesLike]

/-- Witness for C5: the error result on an argument that is not bytes-like, `None` on a
hundred bytes. -/
theorem set_bytes_fails_iff_witness :
    (pyword_set_bytes (zeroed 0) PyObject.notBytesLike).2 = PyRet.NULL ∧
    (pyword_set_bytes (zeroed 0) (PyObject.bytesLike bytes100)).2 = PyRet.None :=
  ⟨(set_bytes_fails_iff (zeroed 0) PyObject.notBytesLike).2.1.mpr rfl,
   (set_bytes_fails_iff (zeroed 0) PyObject.notBytesLike).2.2 bytes100⟩

/-- C6: `get_bytes` is a pure read. For every buffer `b` with `len ≤ 64` it returns a byte
sequence of exactly `b.len` bytes, equal to `b.data[0..len)`, and hands back `b` with
all 64 data bytes and `len` as they were; so a second call returns the same result. -/
theorem get_bytes_pure (b : PyWordObject) (h : b.word.len ≤ PYWORD_SIZE) :
    ∃ out : List Byte,
      (pyword_get_bytes b).2 = some (PyRet.Bytes out) ∧
      out.length = b.word.len ∧
      (∀ i : Fin PYWORD_SIZE, i.val < b.word.len → out[i.val]? = some (b.word.data i)) ∧
      (pyword_get_bytes b).1 = b ∧
      (∀ i : Fin PYWORD_SIZE, (pyword_get_bytes b).1.word.data i = b.word.data i) ∧
      (pyword_get_bytes b).1.word.len = b.word.len ∧
      (pyword_get_bytes (pyword_get_bytes b).1).2 = (pyword_get_bytes b).2 := by
  have hP : PYWORD_SIZE = 64 := rfl
  have hle : b.word.len ≤ 64 := h
  refine ⟨(List.ofFn b.word.data).take b.word.len, ?_, ?_, ?_, rfl, fun _ => rfl, rfl, rfl⟩
  · rw [pyword_get_bytes_of_le b hle]
  · rw [List.length_take, List.length_ofFn]
    omega
  · intro i hi
    have hlen : i.val < ((List.ofFn b.word.data).take b.word.len).length := by
      rw [List.length_take, List.length_ofFn]
      omega
    rw [List.getElem?_eq_getElem hlen, List.getElem_take, List.getElem_ofFn]

/-- Witness for C6: the buffer holding the first 64 of the hundred bytes `0..99`. -/
theorem get_bytes_pure_witness :
    three_calls.word.len ≤ PYWORD_SIZE ∧
    ∃ out : List Byte,
      (pyword_get_bytes three_calls).2 = some (PyRet.Bytes out) ∧
      out.length = three_calls.word.len ∧
      (∀ i : Fin PYWORD_SIZE, i.val < three_calls.word.len →
        out[i.val]? = some (three_calls.word.data i)) ∧
      (pyword_get_bytes three_calls).1 = three_calls ∧
      (∀ i : Fin PYWORD_SIZE,
        (pyword_get_bytes three_calls).1.word.data i = three_calls.word.data i) ∧
      (pyword_get_bytes three_calls).1.word.len = three_calls.word.len ∧
      (pyword_get_bytes (pyword_get_bytes three_calls).1).2 = (pyword_get_bytes three_calls).2 :=
  ⟨by decide, get_bytes_pure three_calls (by decide)⟩

/-- C7: idempotence of set. For every buffer `b` and every byte sequence `s`, doing
`set_bytes(b, s)` twice gives the same state (same `len`, same 64 data bytes) and the
same result as doing it once, hence the same `get_bytes` result and length. -/
theorem set_bytes_idempotent (b : PyWordObject) (s : List Byte) :
    pyword_set_bytes (pyword_set_bytes b (PyObject.bytesLike s)).1 (PyObject.bytesLike s)
      = pyword_set_bytes b (PyObject.bytesLike s) ∧
    (∀ i : Fin PYWORD_SIZE,
      (pyword_set_bytes (pyword_set_bytes b (PyObject.bytesLike s)).1
          (PyObject.bytesLike s)).1.word.data i
        = (pyword_set_bytes b (PyObject.bytesLike s)).1.word.data i) ∧
    (pyword_set_bytes (pyword_set_bytes b (PyObject.bytesLike s)).1
        (PyObject.bytesLike s)).1.word.len
      = (pyword_set_bytes b (PyObject.bytesLike s)).1.word.len ∧
    (pyword_get_bytes (pyword_set_bytes (pyword_set_bytes b (PyObject.bytesLike s)).1
        (PyObject.bytesLike s)).1).2
      = (pyword_get_bytes (pyword_set_bytes b (PyObject.bytesLike s)).1).2 ∧
    (pyword_c.pyword_len (pyword_set_bytes (pyword_set_bytes b (PyObject.bytesLike s)).1
        (PyObject.bytesLike s)).1).2
      = (pyword_c.pyword_len (pyword_set_bytes b (PyObject.bytesLike s)).1).2 := by
  have key : pyword_set_bytes (pyword_set_bytes b (PyObject.bytesLike s)).1
      (PyObject.bytesLike s) = pyword_set_bytes b (PyObject.bytesLike s) := by
    rw [pyword_set_bytes_bytesLike b s, pyword_set_bytes_bytesLike]
    simp only [memcpy_idem]
  refine ⟨key, ?_, ?_, ?_, ?_⟩ <;> simp only [key, implies_true]

/-- C10: atomicity on error. When `set_bytes` is called with an argument that cannot be
viewed as a byte sequence, it returns the error result and the buffer state (`len` and
all 64 data bytes) is the state before the call, so `get_bytes` afterwards returns what
it returned before. -/
theorem set_bytes_error_atomic (self : PyWordObject) (obj : PyObject)
    (h : PyObject_GetBuffer obj = none) :
    pyword_set_bytes self obj = (self, PyRet.NULL) ∧
    (pyword_set_bytes self obj).1.word.len = self.word.len ∧
    (∀ i : Fin PYWORD_SIZE, (pyword_set_bytes self obj).1.word.data i = self.word.data i) ∧
    (pyword_get_bytes (pyword_set_bytes self obj).1).2 = (pyword_get_bytes self).2 := by
  have key : pyword_set_bytes self obj = (self, PyRet.NULL) := by
    simp only [pyword_set_bytes, h]
  refine ⟨key, ?_, ?_, ?_⟩ <;> simp only [key, implies_true]

/-- Witness for C10: an argument that is not bytes-like, given to a buffer that holds 64
bytes. -/
theorem set_bytes_error_atomic_witness :
    PyObject_GetBuffer PyObject.notBytesLike = none ∧
    pyword_set_bytes three_calls PyObject.notBytesLike = (three_calls, PyRet.NULL) ∧
    (pyword_get_bytes (pyword_set_bytes three_calls PyObject.notBytesLike).1).2
      = (pyword_get_bytes three_calls).2 :=
  ⟨rfl, (set_bytes_error_atomic three_calls PyObject.notBytesLike rfl).1,
   (set_bytes_error_atomic three_calls PyObject.notBytesLike rfl).2.2.2⟩

theorem memcpy_take (dst : Fin PYWORD_SIZE → Byte) (src : List Byte) (n m : Nat)
    (h : m ≤ n) : memcpy dst (src.take n) m = memcpy dst src m := by
  funext i
  simp only [memcpy]
  split
  · rename_i hi
    rw [List.getD_eq_getElem?_getD, List.getD_eq_getElem?_getD,
      List.getElem?_take_of_lt (by omega)]
  · rfl

theorem pyword_set_eq (w : PyWord) (src : List Byte) (n : Nat) (hn : n ≤ 255) :
    pyword_set w src n = { data := memcpy w.data src (min n 64), len := min n 64 } := by
  have h0 : to_uint8 n = n := by
    unfold to_uint8
    omega
  simp only [pyword_set, h0, to_uint8_clamp, to_uint8_min]

/-- Beyond 255 the two part ways: the count 256 reaches the helper as 0, while 256 bytes
given to `set_bytes` are clamped to 64. -/
theorem pyword_set_count_256 :
    (pyword_set (zeroed 0).word bytes100 256).len = 0 ∧
    (pyword_set_bytes (zeroed 0) (PyObject.bytesLike (bytes100.take 256))).1.word.len = 64 := by
  decide

/-- C9: the helper `pyword_set` agrees with the method `pyword_set_bytes` whenever the
count fits the `uint8_t` parameter. For every `PyWord` `w`, every count `n` in `0..255`
and every source holding at least `min(n, 64)` bytes, `pyword_set(w, src, n)` produces
the state `pyword_set_bytes` produces from `w` on `src[0..n)`: `len = min(n, 64)`,
`data[0..len) = src[0..len)`, and `data[len..64)` as in `w`. -/
theorem pyword_set_agrees (w : PyWord) (src : List Byte) (n : Nat)
    (hn : n ≤ 255) (hsrc : min n 64 ≤ src.length) :
    ({ word := pyword_set w src n } : PyWordObject)
      = (pyword_set_bytes { word := w } (PyObject.bytesLike (src.take n))).1 ∧
    (pyword_set w src n).len = min n 64 ∧
    (∀ i : Fin PYWORD_SIZE, i.val < min n 64 →
      some ((pyword_set w src n).data i) = src[i.val]?) ∧
    (∀ i : Fin PYWORD_SIZE, min n 64 ≤ i.val →
      (pyword_set w src n).data i = w.data i) := by
  have hm : min (src.take n).length 64 = min n 64 := by
    rw [List.length_take]
    omega
  refine ⟨?_, ?_, ?_, ?_⟩
  · rw [pyword_set_bytes_bytesLike, pyword_set_eq w src n hn, hm,
      memcpy_take _ _ _ _ (Nat.min_le_left _ _)]
  · rw [pyword_set_eq w src n hn]
  · intro i hi
    have hs : i.val < src.length := by omega
    rw [pyword_set_eq w src n hn]
    simp only [memcpy, hi, if_true]
    rw [List.getD_eq_getElem _ _ hs, List.getElem?_eq_getElem hs]
  · intro i hi
    have hlt : ¬ i.val < min n 64 := by omega
    rw [pyword_set_eq w src n hn]
    simp only [memcpy, hlt, if_false]

/-- Witness for C9: the count 200 with the hundred bytes `0..99` as source, written over
a buffer that held `b"hello"`. -/
theorem pyword_set_agrees_witness :
    200 ≤ 255 ∧ min 200 64 ≤ bytes100.length ∧
    ({ word := pyword_set (pyword_set_bytes (zeroed 0) (PyObject.bytesLike hello)).1.word
        bytes100 200 } : PyWordObject)
      = (pyword_set_bytes
          { word := (pyword_set_bytes (zeroed 0) (PyObject.bytesLike hello)).1.word }
          (PyObject.bytesLike (bytes100.take 200))).1 ∧
    (pyword_set (pyword_set_bytes (zeroed 0) (PyObject.bytesLike hello)).1.word
        bytes100 200).len = min 200 64 :=
  ⟨by decide, by decide,
   (pyword_set_agrees (pyword_set_bytes (zeroed 0) (PyObject.bytesLike hello)).1.word
      bytes100 200 (by decide) (by decide)).1,
   (pyword_set_agrees (pyword_set_bytes (zeroed 0) (PyObject.bytesLike hello)).1.word
      bytes100 200 (by decide) (by decide)).2.1⟩

/-- C8, what the code does: the only C functions `PyWordType` makes callable are
`pyword_new`, `pyword_dealloc`, `pyword_set_bytes` and `pyword_get_bytes`. The method
table has the two rows `set_bytes` and `get_bytes`, and the sequence and mapping tables
are absent, so `pyword_len` is not among the entry points, although it does return
`len` and hands the buffer back as it was. -/
theorem pyword_len_not_registered :
    entry_points PyWordType
      = [CFunc.pyword_new, CFunc.pyword_dealloc, CFunc.pyword_set_bytes,
         CFunc.pyword_get_bytes] ∧
    CFunc.pyword_len ∉ entry_points PyWordType ∧
    PyWordType.tp_methods.map (fun m => m.ml_name) = ["set_bytes", "get_bytes"] ∧
    PyWordType.tp_as_sequence.isNone = true ∧
    PyWordType.tp_as_mapping.isNone = true ∧
    (∀ b : PyWordObject, pyword_c.pyword_len b = (b, (b.word.len : Int))) := by
  refine ⟨by decide, by decide, by decide, rfl, rfl, fun _ => rfl⟩
